import Mathlib

set_option maxHeartbeats 1000000

/-!
# Verification of the "two paradigms of finance" front-end scripts

Shallow embedding of the three scripts of the repository:

* `src/static/js/library.js` — library catalog: search / filter / sort /
  infinite scroll / author journeys, plus the canvas timeline that shares
  the file (hit testing, decade trend lines);
* `src/static/js/periodicals.js` and the unnamed fuller variant — the
  divergence chart over per-window cosine distances.

Modelling conventions: JS numbers used as years and counts are `Int`/`Nat`;
canvas coordinates and scores are `ℚ` (exact field arithmetic standing in
for IEEE doubles); a possibly-missing numeric field is `Option Int` and
`Number(x) || 0` is `Option.getD 0`; JS string operations are mapped to
their `String`/`List Char` counterparts (codepoints standing in for UTF-16
units, which agrees on the Basic Multilingual Plane); `Array.prototype.sort`
with a comparator `cmp` is modelled as `List.mergeSort` with the relation
`fun a b => cmp a b ≤ 0`, which is sound because every comparator in these
scripts is induced by a total preorder on a key.  `filter` and `slice`
allocate fresh arrays in JS, so the in-place `sort` that follows them never
aliases the input datasets and all operations are modelled as pure
functions on an explicit state.
-/

namespace TwoParadigms

/-- JS `Number(d.year) || 0`: a missing / non-numeric year field is
modelled as `none` and collapses to `0`. -/
def yearNum (y : Option Int) : Int := y.getD 0

/-- One record of `window.LIBRARY_DATA`.  The `have` field of the JS record
is a truthiness flag, modelled as `Bool` and renamed `haveFlag` because
`have` is a Lean keyword. -/
structure Rec where
  author : String
  title : String
  key_concepts : String
  stream : String
  topic : String
  year : Option Int
  haveFlag : Bool
  deriving DecidableEq

/-- The current values of the five library controls (`searchInput.value`,
`streamFilter.value`, `topicFilter.value`, `eraFilter.value`,
`haveFilter.value`); `haveSel` renamed as for `Rec.haveFlag`. -/
structure Controls where
  query : String
  stream : String
  topic : String
  era : String
  haveSel : String
  deriving DecidableEq

/-- `getEraRange` from library.js lines 83–92 (a `switch` on the era
option value). -/
def getEraRange (era : String) : Int × Int :=
  if era = "pre-1800" then (0, 1799)
  else if era = "1800-1900" then (1800, 1900)
  else if era = "1900-1958" then (1901, 1957)
  else if era = "1958-1980" then (1958, 1980)
  else if era = "1980-present" then (1981, 9999)
  else (0, 9999)

/-- The five selectable era options (the non-default cases of
`getEraRange`). -/
def eraOptions : List String :=
  ["pre-1800", "1800-1900", "1900-1958", "1958-1980", "1980-present"]

/-- JS `s.toLowerCase()`: lowercase every unit (Lean's `String.toLower` is
the same map, but is not definitionally reducible, so the map is spelled
out over the character list). -/
def toLowerJS (s : String) : String := String.mk (s.data.map Char.toLower)

/-- JS `s.trim()`: strip leading and trailing whitespace. -/
def trimJS (s : String) : String :=
  String.mk
    (((s.data.dropWhile Char.isWhitespace).reverse.dropWhile
        Char.isWhitespace).reverse)

/-- JS `(searchInput.value || '').toLowerCase().trim()`. -/
def queryNorm (s : String) : String := trimJS (toLowerJS s)

/-- JS `(d.author + ' ' + d.title + ' ' + d.key_concepts).toLowerCase()`. -/
def hayOf (d : Rec) : String :=
  toLowerJS (d.author ++ " " ++ d.title ++ " " ++ d.key_concepts)

/-- JS `hay.includes(query)`: substring containment. -/
def containsJS (hay q : String) : Bool := decide (q.data <:+: hay.data)

/-- The predicate of `data.filter(...)` in `applyFilters` (library.js lines
105–119), written as the same early-return chain. -/
def matchesFilters (c : Controls) (d : Rec) : Bool :=
  let query := queryNorm c.query
  let r := getEraRange c.era
  if decide (query ≠ "") && !(containsJS (hayOf d) query) then false
  else if decide (c.stream ≠ "") && decide (d.stream ≠ c.stream) then false
  else if decide (c.topic ≠ "") && decide (d.topic ≠ c.topic) then false
  else if decide (c.era ≠ "") &&
      (decide (yearNum d.year < r.1) || decide (r.2 < yearNum d.year)) then false
  else if decide (c.haveSel = "yes") && !d.haveFlag then false
  else if decide (c.haveSel = "no") && d.haveFlag then false
  else true

/-- The filter phase of `applyFilters`. -/
def filterRecords (c : Controls) (data : List Rec) : List Rec :=
  data.filter (matchesFilters c)

/-- Sort keys: the comparator of `applyFilters` compares `Number(v) || 0`
when `sortField === 'year'` and `String(v || '').toLowerCase()` otherwise. -/
inductive SortKey where
  | num : Int → SortKey
  | str : String → SortKey
  deriving DecidableEq

/-- `d[f]` for the string-valued columns; an unknown field reads as
`undefined` and `String(undefined || '')` is `''`. -/
def getStrField (d : Rec) (f : String) : String :=
  if f = "author" then d.author
  else if f = "title" then d.title
  else if f = "key_concepts" then d.key_concepts
  else if f = "stream" then d.stream
  else if f = "topic" then d.topic
  else ""

/-- The key the comparator of `applyFilters` derives from a record for a
given `sortField`. -/
def sortKey (f : String) (d : Rec) : SortKey :=
  if f = "year" then .num (yearNum d.year)
  else .str (toLowerJS (getStrField d f))

/-- Order on sort keys: JS `<` on two numbers resp. two strings.  Both
sides always have the same constructor (same field); the mixed cases are an
arbitrary total completion. -/
def keyLe : SortKey → SortKey → Bool
  | .num a, .num b => decide (a ≤ b)
  | .str a, .str b => decide (a ≤ b)
  | .num _, .str _ => true
  | .str _, .num _ => false

/-- `comparator(a, b) ≤ 0` for the comparator of `applyFilters` (lines
121–134): with `sortDir = 1` this is `key a ≤ key b`, with `sortDir = -1`
it is `key b ≤ key a`. -/
def recLe (f : String) (dir : Int) (a b : Rec) : Bool :=
  if dir = 1 then keyLe (sortKey f a) (sortKey f b)
  else keyLe (sortKey f b) (sortKey f a)

/-- The sort phase of `applyFilters`: `filtered.sort(comparator)`. -/
def sortRecords (f : String) (dir : Int) (l : List Rec) : List Rec :=
  l.mergeSort (recLe f dir)

/-- The `filtered` list computed by `applyFilters`: filter, then sort. -/
def applyFiltersList (c : Controls) (f : String) (dir : Int)
    (data : List Rec) : List Rec :=
  sortRecords f dir (filterRecords c data)

/-- The sort state (`sortField`, `sortDir`) of library.js. -/
structure SortState where
  sortField : String
  sortDir : Int
  deriving DecidableEq

/-- The sort-header click handler (library.js lines 312–325): clicking the
current field does `sortDir *= -1`; clicking another field selects it with
`sortDir = 1`. -/
def clickHeader (field : String) (st : SortState) : SortState :=
  if st.sortField = field then { st with sortDir := st.sortDir * -1 }
  else { sortField := field, sortDir := 1 }

/-! ## Author index and author journey

`getAuthorKeys` normalizes an author string with a regular-expression split
that the claims never peer into, so the index-building code is parametrized
over an arbitrary key extractor `keysOf` (and the link code over the
matching `primary` extractor `getPrimaryAuthorKey`). -/

/-- The JS pattern `if (!obj[k]) obj[k] = []; obj[k].push(v)` on an object
of array values, modelled on an association list: append `v` to the bucket
of key `k`, creating the bucket at the end when absent (JS objects append
new keys in insertion order). -/
def pushAssoc {κ β : Type} [DecidableEq κ] (idx : List (κ × List β))
    (k : κ) (v : β) : List (κ × List β) :=
  match idx with
  | [] => [(k, [v])]
  | (k', l) :: rest =>
      if k' = k then (k', l ++ [v]) :: rest
      else (k', l) :: pushAssoc rest k v

/-- `authorIndex[k].push(d)` with bucket creation (library.js lines 45–48). -/
def pushEntry (idx : List (String × List Rec)) (k : String) (d : Rec) :
    List (String × List Rec) :=
  pushAssoc idx k d

/-- `authorIndex` built by the init loop (library.js lines 42–49): for each
record in order, push it onto the bucket of each of its author keys. -/
def buildAuthorIndex (keysOf : String → List String) (data : List Rec) :
    List (String × List Rec) :=
  data.foldl
    (fun idx d => (keysOf d.author).foldl (fun idx k => pushEntry idx k d) idx)
    []

/-- `authorIndex[key] || []`. -/
def authorWorks (idx : List (String × List Rec)) (k : String) : List Rec :=
  (idx.lookup k).getD []

/-- `multiWorkAuthors` (library.js lines 51–55): the keys whose bucket has
at least two entries. -/
def multiWorkAuthors (idx : List (String × List Rec)) : List String :=
  (idx.filter (fun kv => decide (2 ≤ kv.2.length))).map Prod.fst

/-- The condition under which `renderBatch` makes the author cell a
clickable link (library.js lines 166–174):
`authorKey && multiWorkAuthors.has(authorKey)`. -/
def authorLinkShown (primary : String → String)
    (idx : List (String × List Rec)) (d : Rec) : Bool :=
  decide (primary d.author ≠ "") &&
    (multiWorkAuthors idx).contains (primary d.author)

/-- `showAuthorJourney` (library.js lines 242–296) reduced to the journey
panel content it produces: `none` models the early return (panel left
unchanged), `some ws` models the panel being filled with the works `ws` in
the displayed order.  `slice()` allocates a copy, so the in-place `sort`
never touches the index bucket. -/
def showAuthorJourney (idx : List (String × List Rec)) (k : String) :
    Option (List Rec) :=
  let works := (authorWorks idx k).mergeSort
    (fun a b => decide (yearNum a.year ≤ yearNum b.year))
  if works.length < 2 then none else some works

/-! ## Incremental rendering and the library state machine -/

/-- library.js line 10. -/
def BATCH_SIZE : Nat := 60

/-- The mutable state of the library script.  `rowsInDom` counts the `<tr>`
nodes currently in `tbody` (rows appended since the last
`tbody.innerHTML = ''` reset); `loadMoreVisible` is whether the load-more
sentinel has `display: block`; `journey` is the author-journey panel
content (`none` = never filled). -/
structure LibState where
  data : List Rec
  authorIdx : List (String × List Rec)
  filtered : List Rec
  rendered : Nat
  rowsInDom : Nat
  loadMoreVisible : Bool
  sortField : String
  sortDir : Int
  journey : Option (List Rec)

/-- `renderBatch` (library.js lines 146–212): compute
`end = min(rendered + BATCH_SIZE, filtered.length)`; when nothing remains,
hide the sentinel and return; otherwise append `end - rendered` rows, set
`rendered = end` and show the sentinel iff `rendered < filtered.length`. -/
def renderBatchS (s : LibState) : LibState :=
  let e := min (s.rendered + BATCH_SIZE) s.filtered.length
  if e ≤ s.rendered then { s with loadMoreVisible := false }
  else
    { s with
      rendered := e
      rowsInDom := s.rowsInDom + (e - s.rendered)
      loadMoreVisible := decide (e < s.filtered.length) }

/-- `applyFilters` (library.js lines 97–141): recompute `filtered`
(filter + sort), reset `rendered = 0`, clear `tbody`, then `renderBatch`. -/
def applyFiltersS (c : Controls) (s : LibState) : LibState :=
  renderBatchS
    { s with
      filtered := applyFiltersList c s.sortField s.sortDir s.data
      rendered := 0
      rowsInDom := 0 }

/-- A sort-header click (library.js lines 312–325): update the sort state
per `clickHeader`, then `applyFilters()`. -/
def sortClickS (field : String) (c : Controls) (s : LibState) : LibState :=
  let st := clickHeader field { sortField := s.sortField, sortDir := s.sortDir }
  applyFiltersS c { s with sortField := st.sortField, sortDir := st.sortDir }

/-- The `IntersectionObserver` callback (library.js lines 224–229) firing
with the sentinel intersecting: `renderBatch` only when
`rendered < filtered.length`. -/
def observerFireS (s : LibState) : LibState :=
  if s.rendered < s.filtered.length then renderBatchS s else s

/-- An author-link click (library.js lines 236–240 / 242–296): fill the
journey panel unless the early return is taken. -/
def authorClickS (k : String) (s : LibState) : LibState :=
  match showAuthorJourney s.authorIdx k with
  | none => s
  | some ws => { s with journey := some ws }

/-- The `journey-close` click (library.js lines 298–300). -/
def journeyCloseS (s : LibState) : LibState := { s with journey := none }

/-- The user interactions of the library page.  The events that run
`applyFilters` carry the control values the handler reads from the DOM;
`searchDebounced` is the deferred firing of the debounced search handler. -/
inductive LibEvent where
  | filterChange (c : Controls)
  | searchDebounced (c : Controls)
  | sortClick (field : String) (c : Controls)
  | observerFire
  | authorClick (k : String)
  | journeyClose

/-- One step of the library state machine. -/
def stepLib : LibEvent → LibState → LibState
  | .filterChange c => applyFiltersS c
  | .searchDebounced c => applyFiltersS c
  | .sortClick f c => sortClickS f c
  | .observerFire => observerFireS
  | .authorClick k => authorClickS k
  | .journeyClose => journeyCloseS

/-- Run a sequence of interactions. -/
def runLib (evs : List LibEvent) (s : LibState) : LibState :=
  evs.foldl (fun s e => stepLib e s) s

/-- The state after the init code of library.js: `sortField = 'year'`,
`sortDir = 1`, `authorIndex` built from the data, then `applyFilters()`. -/
def libInit (keysOf : String → List String) (data : List Rec)
    (c : Controls) : LibState :=
  applyFiltersS c
    { data := data
      authorIdx := buildAuthorIndex keysOf data
      filtered := data
      rendered := 0
      rowsInDom := 0
      loadMoreVisible := true
      sortField := "year"
      sortDir := 1
      journey := none }

/-- The incremental-rendering invariant: `rendered` never exceeds the
filtered length, equals the number of rows appended to the table body
since the last reset, and the load-more sentinel is visible exactly when
more rows remain. -/
def RenderInv (s : LibState) : Prop :=
  s.rendered ≤ s.filtered.length ∧
  s.rendered = s.rowsInDom ∧
  (s.loadMoreVisible = true ↔ s.rendered < s.filtered.length)

/-! ## Listener registration (library.js lines 305–325) -/

/-- The interactive controls of the library page. -/
inductive LibControl where
  | search
  | stream
  | topic
  | era
  | haveCtl
  | sortHeader (field : String)
  deriving DecidableEq

/-- How a listener runs its action: `immediate` actions run synchronously
within the event handling; `debounced` actions are deferred by `setTimeout`
for `ms` milliseconds (library.js lines 327–333). -/
inductive Handler where
  | immediate (action : Controls → LibState → LibState)
  | debounced (action : Controls → LibState → LibState) (ms : Nat)

/-- The listeners registered in library.js lines 305–325:
`searchInput.addEventListener('input', debounce(applyFilters, 200))`, the
four filter selects call `applyFilters` directly, and each sort header's
click handler synchronously updates the sort state and calls
`applyFilters`. -/
def registeredHandler : LibControl → Handler
  | .search => .debounced applyFiltersS 200
  | .stream => .immediate applyFiltersS
  | .topic => .immediate applyFiltersS
  | .era => .immediate applyFiltersS
  | .haveCtl => .immediate applyFiltersS
  | .sortHeader f => .immediate (sortClickS f)

/-! ## Timeline canvas (second half of library.js)

Coordinates, scores and radii are `ℚ`.  The canvas CSS height is the fixed
`560` set by `resize()`; the width and the year range enter through
`TLCfg`. -/

/-- One record of `window.TIMELINE_DATA` (the fields the script reads). -/
structure TRec where
  author : String
  title : String
  year : Int
  score : Option ℚ
  paradigm : String
  has_note : Bool
  deriving DecidableEq

/-- library.js lines 381–383. -/
def DOT_R : ℚ := 5 / 2

/-- Radius of a research-note dot. -/
def DOT_R_NOTE : ℚ := 6

/-- Radius of a hovered dot. -/
def DOT_R_HOVER : ℚ := 9

/-- JS `| 0`: wrap to a signed 32-bit integer. -/
def toInt32 (n : Int) : Int := (n + 2 ^ 31) % 2 ^ 32 - 2 ^ 31

/-- `hashStr` (library.js lines 387–393): fold `h = ((h << 5) - h + c) | 0`
over the code units; since `h` is already a 32-bit value, one outer wrap
per step is equivalent. -/
def hashStr (s : String) : Int :=
  s.data.foldl (fun h c => toInt32 (h * 32 - h + c.toNat)) 0

/-- `minYear`/`maxYear` (lines 375–377): min resp. max over the positive
years, minus resp. plus 10; `0` stands in for the infinite JS value on an
empty list. -/
def tlMinYear (data : List TRec) : Int :=
  ((((data.map (·.year)).filter (fun y => decide (0 < y))).min?).getD 0) - 10

/-- See `tlMinYear`. -/
def tlMaxYear (data : List TRec) : Int :=
  ((((data.map (·.year)).filter (fun y => decide (0 < y))).max?).getD 0) + 10

/-- The layout inputs of the timeline: CSS width and the year range. -/
structure TLCfg where
  w : ℚ
  minYear : ℚ
  maxYear : ℚ
  deriving DecidableEq

/-- `tlCfg` for a given width and dataset. -/
def tlCfg (w : ℚ) (data : List TRec) : TLCfg :=
  { w := w, minYear := (tlMinYear data : ℚ), maxYear := (tlMaxYear data : ℚ) }

/-- `yearToX` (lines 406–410) with `PADDING.left = 80`,
`PADDING.right = 100`. -/
def yearToX (cfg : TLCfg) (year : ℚ) : ℚ :=
  80 + ((year - cfg.minYear) / (cfg.maxYear - cfg.minYear)) * (cfg.w - 80 - 100)

/-- `scoreToY` (lines 412–419) with `h = 560`, `PADDING.top = 70`,
`PADDING.bottom = 60`: `centerY - score * halfRange`. -/
def scoreToY (score : ℚ) : ℚ := 560 / 2 - score * ((560 - 70 - 60) / 2)

/-- `getFiltered` (lines 421–427). -/
def getFiltered (filt : String) (data : List TRec) : List TRec :=
  data.filter (fun d =>
    if decide (d.year ≤ 0) then false
    else if filt = "all" then true
    else decide (d.paradigm = filt))

/-- A laid-out dot `{x, y, d}`, with the payload fields of `d` that the
interaction code reads inlined. -/
structure Pos where
  x : ℚ
  y : ℚ
  year : Int
  paradigm : String
  has_note : Bool
  deriving DecidableEq

/-- `layoutDots` (lines 430–440): x from the year, y from the score with a
deterministic jitter `(seed % 30 - 15) * 0.3`; JS `%` truncates like
`Int.tmod`. -/
def layoutDots (cfg : TLCfg) (items : List TRec) : List Pos :=
  items.map (fun d =>
    let seed := hashStr (d.author ++ d.title)
    let jitter := ((Int.tmod seed 30 - 15 : Int) : ℚ) * (3 / 10)
    { x := yearToX cfg (d.year : ℚ)
      y := scoreToY (d.score.getD 0) + jitter
      year := d.year
      paradigm := d.paradigm
      has_note := d.has_note })

/-- Index of the last element satisfying `p` (`-1` when none): the value
returned by a JS `for (let i = arr.length - 1; i >= 0; i--)` loop that
returns `i` on the first element satisfying `p`. -/
def lastIdxWhere (p : α → Bool) : List α → Int
  | [] => -1
  | a :: l =>
      let r := lastIdxWhere p l
      if 0 ≤ r then r + 1 else if p a then 0 else -1

/-- The first-loop test of `getHitIndex` (lines 641–646): a research-note
dot whose center is within `DOT_R_HOVER + 2` of the mouse point. -/
def noteHit (mx my : ℚ) (p : Pos) : Bool :=
  p.has_note &&
    decide ((mx - p.x) * (mx - p.x) + (my - p.y) * (my - p.y) ≤
      (DOT_R_HOVER + 2) * (DOT_R_HOVER + 2))

/-- The second-loop test of `getHitIndex` (lines 647–652): a regular dot
whose center is within `DOT_R + 6` of the mouse point. -/
def regHit (mx my : ℚ) (p : Pos) : Bool :=
  !p.has_note &&
    decide ((mx - p.x) * (mx - p.x) + (my - p.y) * (my - p.y) ≤
      (DOT_R + 6) * (DOT_R + 6))

/-- `getHitIndex` (lines 639–654): scan backwards for a note dot in hover
range, then backwards for a regular dot in range, else `-1`. -/
def getHitIndex (mx my : ℚ) (positions : List Pos) : Int :=
  let r := lastIdxWhere (noteHit mx my) positions
  if 0 ≤ r then r else lastIdxWhere (regHit mx my) positions

/-- `Math.floor(year / 10) * 10` (integer years): `Int.fdiv` floors. -/
def decadeOf (year : Int) : Int := year.fdiv 10 * 10

/-- `buckets[dec].push(y)` with creation of a missing bucket (library.js
lines 446–449). -/
def addToBucket (b : List (Int × List ℚ)) (dec : Int) (y : ℚ) :
    List (Int × List ℚ) :=
  pushAssoc b dec y

/-- The bucket-filling loop of `avgByDecade` (lines 444–450). -/
def buildBuckets (pts : List Pos) : List (Int × List ℚ) :=
  pts.foldl (fun b p => addToBucket b (decadeOf p.year) p.y) []

/-- `ys.reduce((a, b) => a + b, 0) / ys.length`. -/
def meanQ (ys : List ℚ) : ℚ := ys.sum / (ys.length : ℚ)

/-- `avgByDecade` (lines 444–457): bucket by decade, then map the
ascending-sorted decade keys to `{x: yearToX(dec + 5), y: mean}`. -/
def avgByDecade (cfg : TLCfg) (pts : List Pos) : List (ℚ × ℚ) :=
  let buckets := buildBuckets pts
  ((buckets.map Prod.fst).mergeSort (fun a b => decide (a ≤ b))).map
    (fun dec =>
      (yearToX cfg (((dec : Int) : ℚ) + 5),
       meanQ ((buckets.lookup dec).getD [])))

/-- `computeTrends` (lines 443–467): the academic and practitioner trend
point lists. -/
def computeTrends (cfg : TLCfg) (positions : List Pos) :
    List (ℚ × ℚ) × List (ℚ × ℚ) :=
  (avgByDecade cfg (positions.filter (fun p => decide (p.paradigm = "academic"))),
   avgByDecade cfg
     (positions.filter (fun p => decide (p.paradigm = "practitioner"))))

/-- The mutable state of the timeline script.  `positions` models
`canvas._positions`, `popupVisible` the popup `visible` class. -/
structure TLState where
  tldata : List TRec
  filter : String
  hoveredIdx : Int
  selectedIdx : Int
  positions : List Pos
  width : ℚ
  popupVisible : Bool

/-- `draw()` reduced to its state effect: recompute `canvas._positions`
from the filtered data (line 635). -/
def drawS (s : TLState) : TLState :=
  { s with
    positions := layoutDots (tlCfg s.width s.tldata) (getFiltered s.filter s.tldata) }

/-- The `mousemove` handler (lines 661–669). -/
def tlMouseMoveS (mx my : ℚ) (s : TLState) : TLState :=
  let idx := getHitIndex mx my s.positions
  if idx ≠ s.hoveredIdx then drawS { s with hoveredIdx := idx } else s

/-- The `click` handler (lines 671–683). -/
def tlClickS (mx my : ℚ) (s : TLState) : TLState :=
  let idx := getHitIndex mx my s.positions
  if 0 ≤ idx then drawS { s with selectedIdx := idx, popupVisible := true }
  else drawS { s with selectedIdx := -1, popupVisible := false }

/-- The `mouseleave` handler (lines 685–689). -/
def tlMouseLeaveS (s : TLState) : TLState := drawS { s with hoveredIdx := -1 }

/-- A timeline filter-button click (lines 730–742). -/
def tlFilterS (f : String) (s : TLState) : TLState :=
  drawS { s with filter := f, selectedIdx := -1, popupVisible := false }

/-- The window `resize` handler (line 744): new width, then redraw. -/
def tlResizeS (w : ℚ) (s : TLState) : TLState := drawS { s with width := w }

/-- The user interactions of the timeline canvas. -/
inductive TLEvent where
  | mouseMove (mx my : ℚ)
  | click (mx my : ℚ)
  | mouseLeave
  | setFilter (f : String)
  | resize (w : ℚ)

/-- One step of the timeline state machine. -/
def stepTL : TLEvent → TLState → TLState
  | .mouseMove mx my => tlMouseMoveS mx my
  | .click mx my => tlClickS mx my
  | .mouseLeave => tlMouseLeaveS
  | .setFilter f => tlFilterS f
  | .resize w => tlResizeS w

/-- Run a sequence of timeline interactions. -/
def runTL (evs : List TLEvent) (s : TLState) : TLState :=
  evs.foldl (fun s e => stepTL e s) s

/-- The state after the timeline init (lines 369–372, 745–746). -/
def tlInit (data : List TRec) (w : ℚ) : TLState :=
  drawS
    { tldata := data
      filter := "all"
      hoveredIdx := -1
      selectedIdx := -1
      positions := []
      width := w
      popupVisible := false }

/-! ## Divergence chart (periodicals.js / the unnamed variant) -/

/-- JS `s.split('-')[0]`: the prefix before the first `'-'`. -/
def splitHead (s : String) : String :=
  String.mk (s.data.takeWhile (fun c => c ≠ '-'))

/-- Value of a maximal leading digit run; `none` when there is none. -/
def digitsVal (cs : List Char) : Option Nat :=
  let ds := cs.takeWhile Char.isDigit
  if ds.isEmpty then none
  else some (ds.foldl (fun n c => n * 10 + (c.toNat - 48)) 0)

/-- JS `parseInt(s)` in base 10: skip leading whitespace, optional sign,
maximal digit prefix; `none` models `NaN`. -/
def parseIntJS (s : String) : Option Int :=
  match s.data.dropWhile Char.isWhitespace with
  | '-' :: rest => (digitsVal rest).map (fun n => -(n : Int))
  | '+' :: rest => (digitsVal rest).map (fun n => (n : Int))
  | cs => (digitsVal cs).map (fun n => (n : Int))

/-- `parseInt(dw.split('-')[0]) + 2`, the plotted midpoint year of a
window key such as `"1865-1869"`; an unparsable key (JS `NaN`) maps to `2`
and is ruled out by hypothesis where it matters. -/
def windowMid (dw : String) : Int := (parseIntJS (splitHead dw)).getD 0 + 2

/-- Layout inputs of `drawDivergence`: width, height, `pad.bottom` (45 in
periodicals.js, 55 in the unnamed variant) and the year range derived from
`windowMids`. -/
structure DivCfg where
  w : ℚ
  h : ℚ
  padBottom : ℚ
  minYear : ℚ
  maxYear : ℚ
  deriving DecidableEq

/-- `xPos` of `drawDivergence` (`pad.left = 60`, `pad.right = 20`). -/
def xPosDiv (c : DivCfg) (year : ℚ) : ℚ :=
  60 + ((year - c.minYear) / (c.maxYear - c.minYear)) * (c.w - 60 - 20)

/-- `yPos` of `drawDivergence`: `pad.top + (1 - val) * chartH` with
`pad.top = 30` and `chartH = h - pad.top - pad.bottom`. -/
def yPosDiv (c : DivCfg) (val : ℚ) : ℚ :=
  30 + (1 - val) * (c.h - 30 - c.padBottom)

/-- `divergence[dw].cosine_distance`: the divergence object as an
association list from window key to its `cosine_distance`. -/
def divValue (div : List (String × ℚ)) (dw : String) : ℚ :=
  (div.lookup dw).getD 0

/-- `Object.keys(divergence).sort()`: the window keys in ascending string
order (JS default sort). -/
def sortedWindows (div : List (String × ℚ)) : List String :=
  (div.map Prod.fst).mergeSort (fun a b => decide (a ≤ b))

/-- The polyline drawn by `drawDivergence` (periodicals.js lines 158–168
over `divMids`/`divVals` from lines 86–90; `getSeries` in the unnamed
variant): one point per window key in sorted order, `moveTo` on the first
point and `lineTo` on each following one. -/
def divergencePolyline (c : DivCfg) (div : List (String × ℚ)) :
    List (ℚ × ℚ) :=
  (sortedWindows div).map
    (fun dw => (xPosDiv c ((windowMid dw : ℚ)), yPosDiv c (divValue div dw)))

/-! ## Helper lemmas -/

theorem getEraRange_pre1800 : getEraRange "pre-1800" = (0, 1799) := rfl

theorem getEraRange_1800 : getEraRange "1800-1900" = (1800, 1900) := rfl

theorem getEraRange_1900 : getEraRange "1900-1958" = (1901, 1957) := rfl

theorem getEraRange_1958 : getEraRange "1958-1980" = (1958, 1980) := rfl

theorem getEraRange_1980 : getEraRange "1980-present" = (1981, 9999) := rfl

/-- The early-return chain of the filter predicate, as the conjunction of
the active conditions. -/
theorem matchesFilters_iff (c : Controls) (d : Rec) :
    matchesFilters c d = true ↔
      (queryNorm c.query ≠ "" → (queryNorm c.query).data <:+: (hayOf d).data) ∧
      (c.stream ≠ "" → d.stream = c.stream) ∧
      (c.topic ≠ "" → d.topic = c.topic) ∧
      (c.era ≠ "" →
        (getEraRange c.era).1 ≤ yearNum d.year ∧
          yearNum d.year ≤ (getEraRange c.era).2) ∧
      (c.haveSel = "yes" → d.haveFlag = true) ∧
      (c.haveSel = "no" → d.haveFlag = false) := by
  simp only [matchesFilters, containsJS]
  split_ifs with h1 h2 h3 h4 h5 h6
  · simp only [Bool.and_eq_true, Bool.not_eq_true', decide_eq_true_eq,
      decide_eq_false_iff_not] at h1
    simp only [false_iff]
    rintro ⟨hq, -, -, -, -, -⟩
    exact h1.2 (hq h1.1)
  · simp only [Bool.and_eq_true, decide_eq_true_eq] at h2
    simp only [false_iff]
    rintro ⟨-, hs, -, -, -, -⟩
    exact h2.2 (hs h2.1)
  · simp only [Bool.and_eq_true, decide_eq_true_eq] at h3
    simp only [false_iff]
    rintro ⟨-, -, ht, -, -, -⟩
    exact h3.2 (ht h3.1)
  · simp only [Bool.and_eq_true, Bool.or_eq_true, decide_eq_true_eq] at h4
    simp only [false_iff]
    rintro ⟨-, -, -, he, -, -⟩
    have := he h4.1
    rcases h4.2 with h | h <;> omega
  · simp only [Bool.and_eq_true, Bool.not_eq_true', decide_eq_true_eq] at h5
    simp only [false_iff]
    rintro ⟨-, -, -, -, hy, -⟩
    exact Bool.false_ne_true (h5.2 ▸ hy h5.1)
  · simp only [Bool.and_eq_true, decide_eq_true_eq] at h6
    simp only [false_iff]
    rintro ⟨-, -, -, -, -, hn⟩
    exact absurd (hn h6.1) (by simp [h6.2])
  · simp only [Bool.and_eq_true, Bool.or_eq_true, Bool.not_eq_true',
      decide_eq_true_eq, decide_eq_false_iff_not, not_and, not_or, not_lt,
      not_not, Bool.not_eq_false, Bool.not_eq_true] at h1 h2 h3 h4 h5 h6
    simp only [true_iff]
    exact ⟨h1, h2, h3, h4, h5, h6⟩

theorem lookup_pushAssoc {κ β : Type} [DecidableEq κ] [BEq κ] [LawfulBEq κ]
    (idx : List (κ × List β)) (k k' : κ) (v : β) :
    (pushAssoc idx k v).lookup k' =
      if k' = k then some (((idx.lookup k').getD []) ++ [v])
      else idx.lookup k' := by
  induction idx with
  | nil =>
      by_cases h : k' = k
      · subst h; simp [pushAssoc, List.lookup_cons]
      · simp [pushAssoc, List.lookup_cons, beq_false_of_ne h, h]
  | cons hd tl ih =>
      obtain ⟨k₀, l₀⟩ := hd
      simp only [pushAssoc]
      by_cases h0 : k₀ = k
      · subst h0
        by_cases h : k' = k₀
        · subst h; simp [List.lookup_cons]
        · simp [List.lookup_cons, beq_false_of_ne h, h]
      · rw [if_neg h0]
        by_cases h : k' = k₀
        · subst h
          have hne : ¬k' = k := fun hh => h0 (hh ▸ rfl)
          simp [List.lookup_cons, hne]
        · simp [List.lookup_cons, beq_false_of_ne h, h, ih]

theorem keys_pushAssoc {κ β : Type} [DecidableEq κ]
    (idx : List (κ × List β)) (k : κ) (v : β) :
    (pushAssoc idx k v).map Prod.fst =
      if k ∈ idx.map Prod.fst then idx.map Prod.fst
      else idx.map Prod.fst ++ [k] := by
  induction idx with
  | nil => simp [pushAssoc]
  | cons hd tl ih =>
      obtain ⟨k₀, l₀⟩ := hd
      simp only [pushAssoc]
      by_cases h0 : k₀ = k
      · subst h0; simp
      · rw [if_neg h0]
        by_cases hm : k ∈ tl.map Prod.fst
        · simp [ih, hm, fun hh : k = k₀ => h0 hh.symm]
        · simp only [ih, if_neg hm, List.map_cons, List.mem_cons]
          rw [if_neg (by rintro (hh | hh); exacts [h0 hh.symm, hm hh])]
          rfl

theorem mem_keys_pushAssoc {κ β : Type} [DecidableEq κ]
    (idx : List (κ × List β)) (k : κ) (v : β) (k' : κ) :
    k' ∈ (pushAssoc idx k v).map Prod.fst ↔
      k' ∈ idx.map Prod.fst ∨ k' = k := by
  rw [keys_pushAssoc]
  split_ifs with hm
  · constructor
    · exact Or.inl
    · rintro (h | rfl)
      · exact h
      · exact hm
  · simp

theorem nodup_keys_pushAssoc {κ β : Type} [DecidableEq κ]
    (idx : List (κ × List β)) (k : κ) (v : β)
    (h : (idx.map Prod.fst).Nodup) :
    ((pushAssoc idx k v).map Prod.fst).Nodup := by
  rw [keys_pushAssoc]
  split_ifs with hm
  · exact h
  · simp [List.nodup_append, h, hm]

theorem lookup_eq_some_of_mem_nodup {κ β : Type} [BEq κ] [LawfulBEq κ]
    (idx : List (κ × β)) (hnd : (idx.map Prod.fst).Nodup) (k : κ) (b : β)
    (hm : (k, b) ∈ idx) : idx.lookup k = some b := by
  induction idx with
  | nil => simp at hm
  | cons hd tl ih =>
      obtain ⟨k₀, b₀⟩ := hd
      rcases List.mem_cons.mp hm with heq | htl
      · obtain ⟨rfl, rfl⟩ := Prod.mk.injEq .. ▸ heq
        exact List.lookup_cons_self
      · have hk : k ≠ k₀ := by
          rintro rfl
          exact (List.nodup_cons.mp hnd).1
            (List.mem_map.mpr ⟨(k, b), htl, rfl⟩)
        rw [List.lookup_cons]
        simp only [beq_false_of_ne hk]
        exact ih (List.nodup_cons.mp hnd).2 htl

theorem mem_of_lookup_eq_some {κ β : Type} [BEq κ] [LawfulBEq κ]
    (idx : List (κ × β)) (k : κ) (b : β) (h : idx.lookup k = some b) :
    (k, b) ∈ idx := by
  induction idx with
  | nil => simp at h
  | cons hd tl ih =>
      obtain ⟨k₀, b₀⟩ := hd
      rw [List.lookup_cons] at h
      by_cases hk : k == k₀
      · simp only [hk] at h
        obtain rfl := (beq_iff_eq ..).mp hk
        obtain rfl := Option.some.injEq .. ▸ h
        exact List.mem_cons_self _ _
      · simp only [Bool.not_eq_true] at hk
        simp only [hk] at h
        exact List.mem_cons_of_mem _ (ih h)

theorem keyLe_total (a b : SortKey) : keyLe a b || keyLe b a := by
  cases a <;> cases b <;>
    simp only [keyLe, Bool.or_eq_true, decide_eq_true_eq, Bool.or_true,
      Bool.true_or]
  · exact Int.le_total _ _
  · exact le_total _ _

theorem keyLe_trans (a b c : SortKey) :
    keyLe a b → keyLe b c → keyLe a c := by
  cases a <;> cases b <;> cases c <;>
    simp only [keyLe, decide_eq_true_eq, Bool.false_eq_true, false_implies,
      implies_true, IsEmpty.forall_iff]
  · exact fun h1 h2 => le_trans h1 h2
  · exact fun h1 h2 => le_trans h1 h2

theorem recLe_total (f : String) (dir : Int) (a b : Rec) :
    recLe f dir a b || recLe f dir b a := by
  unfold recLe
  split_ifs <;> exact keyLe_total _ _

theorem recLe_trans (f : String) (dir : Int) (a b c : Rec) :
    recLe f dir a b → recLe f dir b c → recLe f dir a c := by
  unfold recLe
  split_ifs <;> intro h1 h2
  · exact keyLe_trans _ _ _ h1 h2
  · exact keyLe_trans _ _ _ h2 h1

/-! ## Claim theorems -/

/-- Claim C1: for every dataset and every combination of controls,
`applyFilters` sets the filtered list to exactly those records `d` of the
input data such that: if the search query (lowercased, trimmed) is
non-empty then the lowercased concatenation of `d.author`, `d.title` and
`d.key_concepts` contains it as a substring; if a stream is selected then
`d.stream` equals it; if a topic is selected then `d.topic` equals it; if
an era is selected then `Number(d.year) || 0` lies within that era's
inclusive range; and if the have control is `'yes'` (resp. `'no'`) then
`d.have` is truthy (resp. falsy).  Records failing any active condition
are excluded and no other record is excluded. -/
theorem applyFilters_sets_filtered_exactly (c : Controls) (f : String)
    (dir : Int) (data : List Rec) (d : Rec) :
    d ∈ applyFiltersList c f dir data ↔
      d ∈ data ∧
      (queryNorm c.query ≠ "" → (queryNorm c.query).data <:+: (hayOf d).data) ∧
      (c.stream ≠ "" → d.stream = c.stream) ∧
      (c.topic ≠ "" → d.topic = c.topic) ∧
      (c.era ≠ "" →
        (getEraRange c.era).1 ≤ yearNum d.year ∧
          yearNum d.year ≤ (getEraRange c.era).2) ∧
      (c.haveSel = "yes" → d.haveFlag = true) ∧
      (c.haveSel = "no" → d.haveFlag = false) := by
  unfold applyFiltersList sortRecords filterRecords
  rw [List.mem_mergeSort, List.mem_filter, matchesFilters_iff]

/-- Closed instance of `applyFilters_sets_filtered_exactly` at a concrete
record and concrete controls. -/
theorem applyFilters_sets_filtered_exactly_witness :
    { author := "Graham, Benjamin", title := "Security Analysis",
      key_concepts := "intrinsic value", stream := "Practitioner",
      topic := "Valuation", year := some 1934, haveFlag := true : Rec } ∈
      applyFiltersList
        { query := "graham", stream := "Practitioner", topic := "",
          era := "1900-1958", haveSel := "yes" }
        "year" 1
        [{ author := "Graham, Benjamin", title := "Security Analysis",
           key_concepts := "intrinsic value", stream := "Practitioner",
           topic := "Valuation", year := some 1934, haveFlag := true }] :=
  (applyFilters_sets_filtered_exactly _ _ _ _ _).mpr
    (by refine ⟨by decide, fun _ => by decide, fun _ => by decide,
      fun h => absurd rfl h, fun _ => by decide, fun _ => rfl,
      fun h => by simp at h⟩)

/-- Claim C10: the five era ranges returned by `getEraRange` are pairwise
disjoint and jointly cover every integer year from 0 to 9999: each such
year satisfies the range of exactly one selectable era. -/
theorem era_ranges_partition (y : Int) (h0 : 0 ≤ y) (h9 : y ≤ 9999) :
    ∃! e, e ∈ eraOptions ∧
      (getEraRange e).1 ≤ y ∧ y ≤ (getEraRange e).2 := by
  have mem : ∀ s : String, s ∈ eraOptions ↔
      s = "pre-1800" ∨ s = "1800-1900" ∨ s = "1900-1958" ∨
      s = "1958-1980" ∨ s = "1980-present" := by
    intro s; simp [eraOptions]
  by_cases hA : y ≤ 1799
  · refine ⟨"pre-1800",
      ⟨(mem _).mpr (Or.inl rfl), show (0 : Int) ≤ y from h0,
        show y ≤ (1799 : Int) from hA⟩, ?_⟩
    rintro e ⟨hme, hlo, hhi⟩
    rcases (mem e).mp hme with rfl | rfl | rfl | rfl | rfl
    · rfl
    · exact absurd (show (1800 : Int) ≤ y from hlo) (by omega)
    · exact absurd (show (1901 : Int) ≤ y from hlo) (by omega)
    · exact absurd (show (1958 : Int) ≤ y from hlo) (by omega)
    · exact absurd (show (1981 : Int) ≤ y from hlo) (by omega)
  by_cases hB : y ≤ 1900
  · refine ⟨"1800-1900",
      ⟨(mem _).mpr (Or.inr (Or.inl rfl)),
        show (1800 : Int) ≤ y from by omega,
        show y ≤ (1900 : Int) from hB⟩, ?_⟩
    rintro e ⟨hme, hlo, hhi⟩
    rcases (mem e).mp hme with rfl | rfl | rfl | rfl | rfl
    · exact absurd (show y ≤ (1799 : Int) from hhi) (by omega)
    · rfl
    · exact absurd (show (1901 : Int) ≤ y from hlo) (by omega)
    · exact absurd (show (1958 : Int) ≤ y from hlo) (by omega)
    · exact absurd (show (1981 : Int) ≤ y from hlo) (by omega)
  by_cases hC : y ≤ 1957
  · refine ⟨"1900-1958",
      ⟨(mem _).mpr (Or.inr (Or.inr (Or.inl rfl))),
        show (1901 : Int) ≤ y from by omega,
        show y ≤ (1957 : Int) from hC⟩, ?_⟩
    rintro e ⟨hme, hlo, hhi⟩
    rcases (mem e).mp hme with rfl | rfl | rfl | rfl | rfl
    · exact absurd (show y ≤ (1799 : Int) from hhi) (by omega)
    · exact absurd (show y ≤ (1900 : Int) from hhi) (by omega)
    · rfl
    · exact absurd (show (1958 : Int) ≤ y from hlo) (by omega)
    · exact absurd (show (1981 : Int) ≤ y from hlo) (by omega)
  by_cases hD : y ≤ 1980
  · refine ⟨"1958-1980",
      ⟨(mem _).mpr (Or.inr (Or.inr (Or.inr (Or.inl rfl)))),
        show (1958 : Int) ≤ y from by omega,
        show y ≤ (1980 : Int) from hD⟩, ?_⟩
    rintro e ⟨hme, hlo, hhi⟩
    rcases (mem e).mp hme with rfl | rfl | rfl | rfl | rfl
    · exact absurd (show y ≤ (1799 : Int) from hhi) (by omega)
    · exact absurd (show y ≤ (1900 : Int) from hhi) (by omega)
    · exact absurd (show y ≤ (1957 : Int) from hhi) (by omega)
    · rfl
    · exact absurd (show (1981 : Int) ≤ y from hlo) (by omega)
  · refine ⟨"1980-present",
      ⟨(mem _).mpr (Or.inr (Or.inr (Or.inr (Or.inr rfl)))),
        show (1981 : Int) ≤ y from by omega,
        show y ≤ (9999 : Int) from h9⟩, ?_⟩
    rintro e ⟨hme, hlo, hhi⟩
    rcases (mem e).mp hme with rfl | rfl | rfl | rfl | rfl
    · exact absurd (show y ≤ (1799 : Int) from hhi) (by omega)
    · exact absurd (show y ≤ (1900 : Int) from hhi) (by omega)
    · exact absurd (show y ≤ (1957 : Int) from hhi) (by omega)
    · exact absurd (show y ≤ (1980 : Int) from hhi) (by omega)
    · rfl

/-- Claim C2: after `applyFilters` the filtered list is a permutation of
the filter output totally ordered by the comparator — by the key
`Number(v) || 0` when `sortField = 'year'` and `String(v || '').toLowerCase()`
otherwise — non-decreasing when `sortDir = 1` and non-increasing when
`sortDir = -1`; and the header click handler negates `sortDir` on the
current `sortField` and selects a new field with `sortDir = 1`. -/
theorem sort_orders_filtered (c : Controls) (f : String) (dir : Int)
    (data : List Rec) :
    List.Perm (applyFiltersList c f dir data) (filterRecords c data) ∧
    (dir = 1 →
      (applyFiltersList c f dir data).Pairwise
        (fun a b => keyLe (sortKey f a) (sortKey f b) = true)) ∧
    (dir = -1 →
      (applyFiltersList c f dir data).Pairwise
        (fun a b => keyLe (sortKey f b) (sortKey f a) = true)) ∧
    (∀ st : SortState, st.sortField = f →
      clickHeader f st = { st with sortDir := -st.sortDir }) ∧
    (∀ st : SortState, st.sortField ≠ f →
      clickHeader f st = { sortField := f, sortDir := 1 }) := by
  refine ⟨List.mergeSort_perm _ _, ?_, ?_, ?_, ?_⟩
  · rintro rfl
    have h := @List.sorted_mergeSort _ (recLe f 1)
      (fun a b c => recLe_trans f 1 a b c) (recLe_total f 1)
      (filterRecords c data)
    exact h.imp (fun hab => by simpa [recLe] using hab)
  · rintro rfl
    have h := @List.sorted_mergeSort _ (recLe f (-1))
      (fun a b c => recLe_trans f (-1) a b c) (recLe_total f (-1))
      (filterRecords c data)
    refine h.imp (fun hab => ?_)
    simpa [recLe] using hab
  · intro st hst
    simp only [clickHeader, if_pos hst]
    congr 1
    omega
  · intro st hst
    simp only [clickHeader, if_neg hst]

/-- Closed instance of `sort_orders_filtered`: sortedness at a concrete
two-record list and both click behaviours at concrete sort states. -/
theorem sort_orders_filtered_witness :
    (applyFiltersList
      { query := "", stream := "", topic := "", era := "", haveSel := "" }
      "year" 1
      [{ author := "b", title := "t2", key_concepts := "", stream := "",
         topic := "", year := some 1990, haveFlag := false },
       { author := "a", title := "t1", key_concepts := "", stream := "",
         topic := "", year := some 1950, haveFlag := true }]).Pairwise
      (fun a b => keyLe (sortKey "year" a) (sortKey "year" b) = true) ∧
    clickHeader "year" { sortField := "year", sortDir := 1 } =
      { sortField := "year", sortDir := -1 } ∧
    clickHeader "author" { sortField := "year", sortDir := 1 } =
      { sortField := "author", sortDir := 1 } := by
  refine ⟨(sort_orders_filtered _ "year" 1 _).2.1 rfl, ?_, ?_⟩
  · have h := (sort_orders_filtered
      { query := "", stream := "", topic := "", era := "", haveSel := "" }
      "year" 1 []).2.2.2.1 { sortField := "year", sortDir := 1 } rfl
    simpa using h
  · exact (sort_orders_filtered
      { query := "", stream := "", topic := "", era := "", haveSel := "" }
      "author" 1 []).2.2.2.2 { sortField := "year", sortDir := 1 } (by decide)

/-- Closed instance of `era_ranges_partition` at the boundary year 1900
(which the claim singles out as falling only in `'1800-1900'`). -/
theorem era_ranges_partition_witness :
    (0 : Int) ≤ 1900 ∧ (1900 : Int) ≤ 9999 ∧
      ∃! e, e ∈ eraOptions ∧
        (getEraRange e).1 ≤ (1900 : Int) ∧ (1900 : Int) ≤ (getEraRange e).2 :=
  ⟨by decide, by decide, era_ranges_partition 1900 (by decide) (by decide)⟩

/-- Claim C3 (counterexample): the listener registered for the search
input is the 200 ms debounced `applyFilters`, not an immediate one — a
search interaction therefore does not recompute the filtered list within
the handling of that interaction, refuting the claim for the search
control. -/
theorem search_listener_is_debounced :
    registeredHandler LibControl.search = Handler.debounced applyFiltersS 200 ∧
    registeredHandler LibControl.search ≠ Handler.immediate applyFiltersS := by
  refine ⟨rfl, fun h => ?_⟩
  rw [show registeredHandler LibControl.search =
    Handler.debounced applyFiltersS 200 from rfl] at h
  exact Handler.noConfusion h

/-- Claim C3 (amended): every library control interaction except the
search input runs `applyFilters` (or the sort-click wrapper around it)
synchronously within its own handling; the search input's recompute is
debounced via `setTimeout` and only runs 200 ms after the interaction. -/
theorem listeners_synchronous_except_search :
    (∀ ctl : LibControl, ctl ≠ LibControl.search →
      ∃ act, registeredHandler ctl = Handler.immediate act) ∧
    registeredHandler LibControl.search =
      Handler.debounced applyFiltersS 200 := by
  refine ⟨fun ctl h => ?_, rfl⟩
  cases ctl with
  | search => exact absurd rfl h
  | stream => exact ⟨applyFiltersS, rfl⟩
  | topic => exact ⟨applyFiltersS, rfl⟩
  | era => exact ⟨applyFiltersS, rfl⟩
  | haveCtl => exact ⟨applyFiltersS, rfl⟩
  | sortHeader f => exact ⟨sortClickS f, rfl⟩

/-- Closed instance of `listeners_synchronous_except_search` at the stream
filter control. -/
theorem listeners_synchronous_except_search_witness :
    (∃ act, registeredHandler LibControl.stream = Handler.immediate act) ∧
    registeredHandler LibControl.search =
      Handler.debounced applyFiltersS 200 :=
  ⟨listeners_synchronous_except_search.1 LibControl.stream
      (fun h => LibControl.noConfusion h),
    listeners_synchronous_except_search.2⟩

theorem renderBatchS_frame (s : LibState) :
    (renderBatchS s).data = s.data ∧
    (renderBatchS s).authorIdx = s.authorIdx ∧
    (renderBatchS s).filtered = s.filtered := by
  simp only [renderBatchS]
  split_ifs <;> exact ⟨rfl, rfl, rfl⟩

theorem applyFiltersS_frame (c : Controls) (s : LibState) :
    (applyFiltersS c s).data = s.data ∧
    (applyFiltersS c s).authorIdx = s.authorIdx :=
  ⟨(renderBatchS_frame _).1, (renderBatchS_frame _).2.1⟩

theorem stepLib_frame (e : LibEvent) (s : LibState) :
    (stepLib e s).data = s.data ∧ (stepLib e s).authorIdx = s.authorIdx := by
  cases e with
  | filterChange c => exact applyFiltersS_frame c s
  | searchDebounced c => exact applyFiltersS_frame c s
  | sortClick f c => exact applyFiltersS_frame c _
  | observerFire =>
      simp only [stepLib, observerFireS]
      split_ifs
      · exact ⟨(renderBatchS_frame s).1, (renderBatchS_frame s).2.1⟩
      · exact ⟨rfl, rfl⟩
  | authorClick k =>
      simp only [stepLib, authorClickS]
      cases showAuthorJourney s.authorIdx k <;> exact ⟨rfl, rfl⟩
  | journeyClose => exact ⟨rfl, rfl⟩

theorem runLib_frame (evs : List LibEvent) (s : LibState) :
    (runLib evs s).data = s.data ∧ (runLib evs s).authorIdx = s.authorIdx := by
  induction evs generalizing s with
  | nil => exact ⟨rfl, rfl⟩
  | cons e evs ih =>
      have h := stepLib_frame e s
      have h2 := ih (stepLib e s)
      exact ⟨h2.1.trans h.1, h2.2.trans h.2⟩

theorem stepTL_frame (e : TLEvent) (s : TLState) :
    (stepTL e s).tldata = s.tldata := by
  cases e with
  | mouseMove mx my =>
      simp only [stepTL, tlMouseMoveS]
      split_ifs <;> rfl
  | click mx my =>
      simp only [stepTL, tlClickS]
      split_ifs <;> rfl
  | mouseLeave => rfl
  | setFilter f => rfl
  | resize w => rfl

theorem runTL_frame (evs : List TLEvent) (s : TLState) :
    (runTL evs s).tldata = s.tldata := by
  induction evs generalizing s with
  | nil => rfl
  | cons e evs ih => exact (ih (stepTL e s)).trans (stepTL_frame e s)

/-- Claim C4: no operation mutates the input datasets: after any sequence
of library interactions the state still holds the original `LIBRARY_DATA`
array and the author index built at init (whose per-author lists are thus
also unchanged), and after any sequence of timeline interactions the state
still holds the original `TIMELINE_DATA` array.  This is faithful to the
code because `applyFilters` builds a fresh array with `data.filter` before
sorting it in place and `showAuthorJourney` copies with `slice()` before
sorting, so no in-place `sort` ever aliases an input array. -/
theorem interactions_preserve_datasets (keysOf : String → List String)
    (data : List Rec) (c : Controls) (evs : List LibEvent)
    (tldata : List TRec) (w : ℚ) (tevs : List TLEvent) :
    (runLib evs (libInit keysOf data c)).data = data ∧
    (runLib evs (libInit keysOf data c)).authorIdx =
      buildAuthorIndex keysOf data ∧
    (runTL tevs (tlInit tldata w)).tldata = tldata := by
  have h := runLib_frame evs (libInit keysOf data c)
  have h0 := applyFiltersS_frame c
    { data := data
      authorIdx := buildAuthorIndex keysOf data
      filtered := data
      rendered := 0
      rowsInDom := 0
      loadMoreVisible := true
      sortField := "year"
      sortDir := 1
      journey := none }
  exact ⟨h.1.trans h0.1, h.2.trans h0.2, runTL_frame tevs (tlInit tldata w)⟩

/-- Closed instance of `interactions_preserve_datasets` on a concrete
event sequence over the empty datasets. -/
theorem interactions_preserve_datasets_witness :
    (runLib [LibEvent.observerFire]
      (libInit (fun s => [s]) [] ⟨"", "", "", "", ""⟩)).data = [] ∧
    (runTL [TLEvent.mouseLeave] (tlInit [] 800)).tldata = [] :=
  ⟨(interactions_preserve_datasets (fun s => [s]) [] ⟨"", "", "", "", ""⟩
      [LibEvent.observerFire] [] 800 [TLEvent.mouseLeave]).1,
   (interactions_preserve_datasets (fun s => [s]) [] ⟨"", "", "", "", ""⟩
      [LibEvent.observerFire] [] 800 [TLEvent.mouseLeave]).2.2⟩

theorem renderBatchS_spec (s : LibState) :
    (renderBatchS s).rowsInDom =
      s.rowsInDom + min BATCH_SIZE (s.filtered.length - s.rendered) ∧
    (renderBatchS s).rendered =
      s.rendered + min BATCH_SIZE (s.filtered.length - s.rendered) ∧
    (renderBatchS s).filtered = s.filtered ∧
    ((renderBatchS s).loadMoreVisible = true ↔
      (renderBatchS s).rendered < s.filtered.length) := by
  simp only [renderBatchS, BATCH_SIZE]
  split_ifs with h
  · dsimp only
    refine ⟨by omega, by omega, rfl, ?_⟩
    simp only [Bool.false_eq_true, false_iff]
    omega
  · dsimp only
    refine ⟨by omega, by omega, rfl, ?_⟩
    simp only [decide_eq_true_eq]

theorem renderBatchS_inv (s : LibState)
    (hr : s.rendered ≤ s.filtered.length)
    (hd : s.rendered = s.rowsInDom) : RenderInv (renderBatchS s) := by
  obtain ⟨h1, h2, h3, h4⟩ := renderBatchS_spec s
  refine ⟨?_, ?_, ?_⟩
  · rw [h2, h3]
    simp only [BATCH_SIZE] at *
    omega
  · rw [h2, h1, hd]
  · rw [h3]
    exact h4

theorem stepLib_inv (e : LibEvent) (s : LibState) (h : RenderInv s) :
    RenderInv (stepLib e s) := by
  cases e with
  | filterChange c => exact renderBatchS_inv _ (Nat.zero_le _) rfl
  | searchDebounced c => exact renderBatchS_inv _ (Nat.zero_le _) rfl
  | sortClick f c => exact renderBatchS_inv _ (Nat.zero_le _) rfl
  | observerFire =>
      simp only [stepLib, observerFireS]
      split_ifs with ho
      · exact renderBatchS_inv s (Nat.le_of_lt ho) h.2.1
      · exact h
  | authorClick k =>
      simp only [stepLib, authorClickS]
      cases showAuthorJourney s.authorIdx k <;> exact h
  | journeyClose => exact h

theorem libInit_inv (keysOf : String → List String) (data : List Rec)
    (c : Controls) : RenderInv (libInit keysOf data c) :=
  renderBatchS_inv _ (Nat.zero_le _) rfl

theorem runLib_inv (evs : List LibEvent) (s : LibState) (h : RenderInv s) :
    RenderInv (runLib evs s) := by
  induction evs generalizing s with
  | nil => exact h
  | cons e evs ih => exact ih (stepLib e s) (stepLib_inv e s h)

/-- Claim C9: at every point after initialization the rendering invariant
holds — `rendered ≤ filtered.length`, `rendered` equals the rows appended
since the last reset, and the load-more sentinel is visible iff
`rendered < filtered.length` — and every `renderBatch` call appends
exactly `min(BATCH_SIZE, filtered.length - rendered) = min(60, remaining)`
rows (zero when none remain). -/
theorem incremental_rendering_invariant (keysOf : String → List String)
    (data : List Rec) (c : Controls) (evs : List LibEvent) (s : LibState) :
    RenderInv (runLib evs (libInit keysOf data c)) ∧
    (renderBatchS s).rowsInDom =
      s.rowsInDom + min BATCH_SIZE (s.filtered.length - s.rendered) ∧
    (renderBatchS s).rendered =
      s.rendered + min BATCH_SIZE (s.filtered.length - s.rendered) ∧
    ((renderBatchS s).loadMoreVisible = true ↔
      (renderBatchS s).rendered < (renderBatchS s).filtered.length) := by
  obtain ⟨h1, h2, h3, h4⟩ := renderBatchS_spec s
  exact ⟨runLib_inv evs _ (libInit_inv keysOf data c), h1, h2,
    by rw [h3]; exact h4⟩

/-- Closed instance of `incremental_rendering_invariant` after an observer
firing on the empty dataset. -/
theorem incremental_rendering_invariant_witness :
    RenderInv (runLib [LibEvent.observerFire]
      (libInit (fun s => [s]) [] ⟨"", "", "", "", ""⟩)) :=
  (incremental_rendering_invariant (fun s => [s]) [] ⟨"", "", "", "", ""⟩
    [LibEvent.observerFire]
    (libInit (fun s => [s]) [] ⟨"", "", "", "", ""⟩)).1

/-- A backwards scan returning the first match is the greatest matching
index: `lastIdxWhere` either returns `-1` with no element matching, or the
index of a matching element beyond which no element matches. -/
theorem lastIdxWhere_spec {α : Type} (p : α → Bool) (l : List α) :
    (lastIdxWhere p l = -1 ∧ ∀ i : Fin l.length, p (l.get i) = false) ∨
    (∃ i : Fin l.length, lastIdxWhere p l = ((i : Nat) : Int) ∧
      p (l.get i) = true ∧
      ∀ j : Fin l.length, (i : Nat) < (j : Nat) → p (l.get j) = false) := by
  induction l with
  | nil => exact Or.inl ⟨rfl, fun i => i.elim0⟩
  | cons a l ih =>
      rcases ih with ⟨hneg, hall⟩ | ⟨i, hi, hpi, hmax⟩
      · by_cases hpa : p a = true
        · refine Or.inr ⟨⟨0, Nat.succ_pos _⟩, ?_, hpa, ?_⟩
          · simp only [lastIdxWhere, hneg, hpa]
            norm_num
          · rintro ⟨jv, hjv⟩ hj
            cases jv with
            | zero => omega
            | succ k =>
                exact hall ⟨k, Nat.lt_of_succ_lt_succ hjv⟩
        · refine Or.inl ⟨?_, ?_⟩
          · simp only [lastIdxWhere, hneg]
            norm_num [hpa]
          · rintro ⟨jv, hjv⟩
            cases jv with
            | zero => simpa using hpa
            | succ k => exact hall ⟨k, Nat.lt_of_succ_lt_succ hjv⟩
      · refine Or.inr ⟨⟨(i : Nat) + 1, Nat.succ_lt_succ i.isLt⟩, ?_, ?_, ?_⟩
        · simp only [lastIdxWhere, hi]
          rw [if_pos (Int.natCast_nonneg _)]
          push_cast
          ring
        · exact hpi
        · rintro ⟨jv, hjv⟩ hj
          cases jv with
          | zero => simp at hj
          | succ k =>
              exact hmax ⟨k, Nat.lt_of_succ_lt_succ hjv⟩
                (by simpa using Nat.lt_of_succ_lt_succ hj)

/-- Claim C5: timeline hit-testing is by the Euclidean-distance test with
note-dot priority: `getHitIndex` returns the index of the last (greatest
index) research-note dot whose center is within `DOT_R_HOVER + 2` of the
mouse point; failing that, the index of the last regular dot within
`DOT_R + 6`; and `-1` when neither exists.  Being within Euclidean
distance `r ≥ 0` is expressed by the equivalent squared test
`dx·dx + dy·dy ≤ r·r` that the code performs. -/
theorem getHitIndex_spec (mx my : ℚ) (l : List Pos) :
    ((∃ i : Fin l.length, noteHit mx my (l.get i) = true) →
      ∃ i : Fin l.length, getHitIndex mx my l = ((i : Nat) : Int) ∧
        noteHit mx my (l.get i) = true ∧
        ∀ j : Fin l.length, (i : Nat) < (j : Nat) →
          noteHit mx my (l.get j) = false) ∧
    ((∀ i : Fin l.length, noteHit mx my (l.get i) = false) →
      (∃ i : Fin l.length, regHit mx my (l.get i) = true) →
      ∃ i : Fin l.length, getHitIndex mx my l = ((i : Nat) : Int) ∧
        regHit mx my (l.get i) = true ∧
        ∀ j : Fin l.length, (i : Nat) < (j : Nat) →
          regHit mx my (l.get j) = false) ∧
    ((∀ i : Fin l.length, noteHit mx my (l.get i) = false) →
      (∀ i : Fin l.length, regHit mx my (l.get i) = false) →
      getHitIndex mx my l = -1) := by
  have hnote := lastIdxWhere_spec (noteHit mx my) l
  have hreg := lastIdxWhere_spec (regHit mx my) l
  refine ⟨?_, ?_, ?_⟩
  · rintro ⟨i0, hi0⟩
    rcases hnote with ⟨-, hall⟩ | ⟨i, hi, hpi, hmax⟩
    · rw [hall i0] at hi0
      exact absurd hi0 (by simp)
    · refine ⟨i, ?_, hpi, hmax⟩
      unfold getHitIndex
      rw [hi, if_pos (Int.natCast_nonneg _)]
  · intro hn hex
    obtain ⟨i0, hi0⟩ := hex
    have hmin1 : lastIdxWhere (noteHit mx my) l = -1 := by
      rcases hnote with ⟨h, -⟩ | ⟨i, -, hpi, -⟩
      · exact h
      · rw [hn i] at hpi
        exact absurd hpi (by simp)
    rcases hreg with ⟨-, hall⟩ | ⟨i, hi, hpi, hmax⟩
    · rw [hall i0] at hi0
      exact absurd hi0 (by simp)
    · refine ⟨i, ?_, hpi, hmax⟩
      unfold getHitIndex
      rw [hmin1, if_neg (by norm_num), hi]
  · intro hn hr
    have hmin1 : lastIdxWhere (noteHit mx my) l = -1 := by
      rcases hnote with ⟨h, -⟩ | ⟨i, -, hpi, -⟩
      · exact h
      · rw [hn i] at hpi
        exact absurd hpi (by simp)
    have hmin2 : lastIdxWhere (regHit mx my) l = -1 := by
      rcases hreg with ⟨h, -⟩ | ⟨i, -, hpi, -⟩
      · exact h
      · rw [hr i] at hpi
        exact absurd hpi (by simp)
    unfold getHitIndex
    rw [hmin1, if_neg (by norm_num), hmin2]

/-- Closed instance of `getHitIndex_spec`: a single note dot at the origin
with the mouse at the origin is hit, giving index 0. -/
theorem getHitIndex_spec_witness :
    getHitIndex 0 0
      [{ x := 0, y := 0, year := 1960, paradigm := "academic",
         has_note := true }] = 0 := by
  obtain ⟨i, hi, -, -⟩ :=
    (getHitIndex_spec 0 0
        [{ x := 0, y := 0, year := 1960, paradigm := "academic",
           has_note := true }]).1
      ⟨⟨0, by decide⟩, by norm_num [noteHit, DOT_R_HOVER]⟩
  have hlt : (i : Nat) < 1 := i.isLt
  have h0 : (i : Nat) = 0 := by omega
  rw [hi, h0]
  rfl

theorem lookup_buildBuckets_aux (pts : List Pos)
    (b : List (Int × List ℚ)) (k : Int) :
    ((pts.foldl (fun b p => addToBucket b (decadeOf p.year) p.y) b).lookup
        k).getD [] =
      ((b.lookup k).getD []) ++
        ((pts.filter (fun p => decide (decadeOf p.year = k))).map Pos.y) := by
  induction pts generalizing b with
  | nil => simp
  | cons p pts ih =>
      rw [List.foldl_cons, ih]
      unfold addToBucket
      rw [lookup_pushAssoc]
      by_cases h : decadeOf p.year = k
      · rw [if_pos h.symm]
        simp [List.filter_cons, h]
      · rw [if_neg (fun hh => h hh.symm)]
        simp [List.filter_cons, h]

theorem nodup_keys_buildBuckets_aux (pts : List Pos)
    (b : List (Int × List ℚ)) (hb : (b.map Prod.fst).Nodup) :
    (((pts.foldl (fun b p => addToBucket b (decadeOf p.year) p.y) b).map
      Prod.fst).Nodup) := by
  induction pts generalizing b with
  | nil => exact hb
  | cons p pts ih =>
      exact ih _ (nodup_keys_pushAssoc _ _ _ hb)

theorem mem_keys_buildBuckets_aux (pts : List Pos)
    (b : List (Int × List ℚ)) (k : Int) :
    k ∈ (pts.foldl (fun b p => addToBucket b (decadeOf p.year) p.y) b).map
        Prod.fst ↔
      k ∈ b.map Prod.fst ∨ ∃ p ∈ pts, decadeOf p.year = k := by
  induction pts generalizing b with
  | nil => simp
  | cons p pts ih =>
      rw [List.foldl_cons, ih]
      unfold addToBucket
      rw [mem_keys_pushAssoc]
      constructor
      · rintro ((h | rfl) | ⟨p', hp', hk⟩)
        · exact Or.inl h
        · exact Or.inr ⟨p, List.mem_cons_self _ _, rfl⟩
        · exact Or.inr ⟨p', List.mem_cons_of_mem _ hp', hk⟩
      · rintro (h | ⟨p', hp', hk⟩)
        · exact Or.inl (Or.inl h)
        · rcases List.mem_cons.mp hp' with rfl | hp'
          · exact Or.inl (Or.inr hk.symm)
          · exact Or.inr ⟨p', hp', hk⟩

/-- Characterization of `avgByDecade`: there is a strictly increasing list
of exactly the non-empty decades, and the result maps each such decade to
the point `(yearToX (dec + 5), mean of that decade's y values)`. -/
theorem avgByDecade_spec (cfg : TLCfg) (pts : List Pos) :
    ∃ ks : List Int, ks.Pairwise (· < ·) ∧
      (∀ k : Int, k ∈ ks ↔ ∃ p ∈ pts, decadeOf p.year = k) ∧
      avgByDecade cfg pts = ks.map (fun dec =>
        (yearToX cfg (((dec : Int) : ℚ) + 5),
         meanQ ((pts.filter
             (fun p => decide (decadeOf p.year = dec))).map Pos.y))) := by
  refine ⟨((buildBuckets pts).map Prod.fst).mergeSort
      (fun a b => decide (a ≤ b)), ?_, ?_, ?_⟩
  · have hnd : ((buildBuckets pts).map Prod.fst).Nodup :=
      nodup_keys_buildBuckets_aux pts [] (by simp)
    have hnd2 := (List.mergeSort_perm ((buildBuckets pts).map Prod.fst)
      (fun a b => decide (a ≤ b))).nodup_iff.mpr hnd
    have hs := @List.sorted_mergeSort _
      (fun a b : Int => decide (a ≤ b))
      (fun a b c h1 h2 => by
        simp only [decide_eq_true_eq] at *
        omega)
      (fun a b => by
        simp only [Bool.or_eq_true, decide_eq_true_eq]
        omega)
      ((buildBuckets pts).map Prod.fst)
    exact hs.imp₂ (fun a b hab hne => by
      simp only [decide_eq_true_eq] at hab
      omega) hnd2
  · intro k
    rw [List.mem_mergeSort]
    rw [show buildBuckets pts =
      pts.foldl (fun b p => addToBucket b (decadeOf p.year) p.y) [] from rfl]
    rw [mem_keys_buildBuckets_aux pts [] k]
    simp
  · unfold avgByDecade
    refine List.map_congr_left fun dec _ => ?_
    have h := lookup_buildBuckets_aux pts [] dec
    simp only [List.lookup_nil, Option.getD_none, List.nil_append] at h
    rw [show buildBuckets pts =
      pts.foldl (fun b p => addToBucket b (decadeOf p.year) p.y) [] from rfl]
    rw [h]

/-- Claim C6: `computeTrends` groups each paradigm's dots by decade
`Math.floor(year / 10) * 10` and produces, for each non-empty decade in
ascending decade order, exactly one point whose x is `yearToX (decade + 5)`
and whose y is the arithmetic mean of the y positions of that decade's
dots. -/
theorem computeTrends_spec (cfg : TLCfg) (positions : List Pos) :
    (∃ ks : List Int, ks.Pairwise (· < ·) ∧
      (∀ k : Int, k ∈ ks ↔
        ∃ p ∈ positions.filter (fun p => decide (p.paradigm = "academic")),
          decadeOf p.year = k) ∧
      (computeTrends cfg positions).1 = ks.map (fun dec =>
        (yearToX cfg (((dec : Int) : ℚ) + 5),
         meanQ (((positions.filter
             (fun p => decide (p.paradigm = "academic"))).filter
             (fun p => decide (decadeOf p.year = dec))).map Pos.y)))) ∧
    (∃ ks : List Int, ks.Pairwise (· < ·) ∧
      (∀ k : Int, k ∈ ks ↔
        ∃ p ∈ positions.filter
            (fun p => decide (p.paradigm = "practitioner")),
          decadeOf p.year = k) ∧
      (computeTrends cfg positions).2 = ks.map (fun dec =>
        (yearToX cfg (((dec : Int) : ℚ) + 5),
         meanQ (((positions.filter
             (fun p => decide (p.paradigm = "practitioner"))).filter
             (fun p => decide (decadeOf p.year = dec))).map Pos.y)))) :=
  ⟨avgByDecade_spec cfg _, avgByDecade_spec cfg _⟩

/-- Closed instance of `computeTrends_spec` at a one-dot academic layout. -/
theorem computeTrends_spec_witness :
    ∃ ks : List Int, ks.Pairwise (· < ·) ∧
      (∀ k : Int, k ∈ ks ↔
        ∃ p ∈ ([({ x := 100, y := 200, year := 1963, paradigm := "academic", has_note := false } : Pos)]).filter (fun p => decide (p.paradigm = "academic")),
          decadeOf p.year = k) ∧
      (computeTrends ({ w := 1000, minYear := 1860, maxYear := 2030 } : TLCfg)
          [({ x := 100, y := 200, year := 1963, paradigm := "academic", has_note := false } : Pos)]).1 = ks.map (fun dec =>
        (yearToX ({ w := 1000, minYear := 1860, maxYear := 2030 } : TLCfg) (((dec : Int) : ℚ) + 5),
         meanQ (((([({ x := 100, y := 200, year := 1963, paradigm := "academic", has_note := false } : Pos)]).filter (fun p => decide (p.paradigm = "academic"))).filter (fun p => decide (decadeOf p.year = dec))).map Pos.y))) :=
  (computeTrends_spec ({ w := 1000, minYear := 1860, maxYear := 2030 } : TLCfg)
    [({ x := 100, y := 200, year := 1963, paradigm := "academic", has_note := false } : Pos)]).1

theorem nodup_keys_foldl_pushEntry (ks : List String) (d : Rec)
    (idx : List (String × List Rec)) (h : (idx.map Prod.fst).Nodup) :
    ((ks.foldl (fun idx k => pushEntry idx k d) idx).map Prod.fst).Nodup := by
  induction ks generalizing idx with
  | nil => exact h
  | cons k ks ih => exact ih _ (nodup_keys_pushAssoc _ _ _ h)

theorem nodup_keys_buildAuthorIndex (keysOf : String → List String)
    (data : List Rec) :
    ((buildAuthorIndex keysOf data).map Prod.fst).Nodup := by
  suffices h : ∀ idx : List (String × List Rec), (idx.map Prod.fst).Nodup →
      ((data.foldl
        (fun idx d =>
          (keysOf d.author).foldl (fun idx k => pushEntry idx k d) idx)
        idx).map Prod.fst).Nodup by
    exact h [] (by simp)
  induction data with
  | nil => exact fun idx h => h
  | cons d data ih =>
      exact fun idx h => ih _ (nodup_keys_foldl_pushEntry _ _ _ h)

theorem multiWork_contains_iff (idx : List (String × List Rec))
    (hnd : (idx.map Prod.fst).Nodup) (k : String) :
    (multiWorkAuthors idx).contains k = true ↔
      2 ≤ (authorWorks idx k).length := by
  unfold multiWorkAuthors authorWorks
  constructor
  · intro h
    have hm0 : k ∈ (idx.filter (fun kv => decide (2 ≤ kv.2.length))).map
        Prod.fst := List.elem_iff.mp h
    obtain ⟨⟨k', l⟩, hf, rfl⟩ := List.mem_map.mp hm0
    obtain ⟨hm, hlen⟩ := List.mem_filter.mp hf
    rw [lookup_eq_some_of_mem_nodup idx hnd _ _ hm]
    simpa using hlen
  · intro h
    cases hl : idx.lookup k with
    | none =>
        rw [hl] at h
        simp at h
    | some l =>
        rw [hl] at h
        simp only [Option.getD_some] at h
        exact List.elem_iff.mpr
          (List.mem_map.mpr
            ⟨(k, l),
             List.mem_filter.mpr
               ⟨mem_of_lookup_eq_some idx k l hl, by simpa using h⟩, rfl⟩)

theorem showAuthorJourney_none (idx : List (String × List Rec)) (k : String)
    (h : (authorWorks idx k).length < 2) :
    showAuthorJourney idx k = none := by
  unfold showAuthorJourney
  rw [if_pos (by rw [List.length_mergeSort]; exact h)]

theorem showAuthorJourney_some (idx : List (String × List Rec)) (k : String)
    (h : 2 ≤ (authorWorks idx k).length) :
    ∃ ws, showAuthorJourney idx k = some ws ∧
      List.Perm ws (authorWorks idx k) ∧
      ws.Pairwise (fun a b => yearNum a.year ≤ yearNum b.year) := by
  refine ⟨(authorWorks idx k).mergeSort
      (fun a b => decide (yearNum a.year ≤ yearNum b.year)), ?_,
    List.mergeSort_perm _ _, ?_⟩
  · unfold showAuthorJourney
    rw [if_neg (by rw [List.length_mergeSort]; omega)]
  · have hs := @List.sorted_mergeSort _
      (fun a b : Rec => decide (yearNum a.year ≤ yearNum b.year))
      (fun a b c h1 h2 => by
        simp only [decide_eq_true_eq] at *
        omega)
      (fun a b => by
        simp only [Bool.or_eq_true, decide_eq_true_eq]
        omega)
      (authorWorks idx k)
    exact hs.imp (fun hab => by simpa using hab)

/-- Claim C7: the author journey opens only for authors with at least two
indexed works and lists them chronologically: the author cell is made a
clickable link only when the primary author key is in `multiWorkAuthors`
(key present in `authorIndex` with at least 2 works); `showAuthorJourney`
leaves the panel unchanged (`none`) when the key's works number fewer than
2, and otherwise displays the works sorted non-decreasingly by
`Number(year) || 0`. -/
theorem author_journey_spec (keysOf : String → List String)
    (primary : String → String) (data : List Rec) (d : Rec) (k : String) :
    (authorLinkShown primary (buildAuthorIndex keysOf data) d = true →
      (multiWorkAuthors (buildAuthorIndex keysOf data)).contains
          (primary d.author) = true ∧
      2 ≤ (authorWorks (buildAuthorIndex keysOf data)
          (primary d.author)).length) ∧
    ((authorWorks (buildAuthorIndex keysOf data) k).length < 2 →
      showAuthorJourney (buildAuthorIndex keysOf data) k = none) ∧
    (2 ≤ (authorWorks (buildAuthorIndex keysOf data) k).length →
      ∃ ws, showAuthorJourney (buildAuthorIndex keysOf data) k = some ws ∧
        List.Perm ws (authorWorks (buildAuthorIndex keysOf data) k) ∧
        ws.Pairwise (fun a b => yearNum a.year ≤ yearNum b.year)) := by
  refine ⟨?_, showAuthorJourney_none _ _, showAuthorJourney_some _ _⟩
  intro h
  unfold authorLinkShown at h
  have hc := ((Bool.and_eq_true _ _).mp h).2
  exact ⟨hc,
    (multiWork_contains_iff _ (nodup_keys_buildAuthorIndex keysOf data)
      _).mp hc⟩

/-- Closed instance of `author_journey_spec`: a two-work author "doe"
opens a chronological journey, a one-work key "poe" does not. -/
theorem author_journey_spec_witness :
    (∃ ws,
      showAuthorJourney
        (buildAuthorIndex (fun s => [s])
          [{ author := "doe", title := "w1", key_concepts := "",
             stream := "", topic := "", year := some 1950,
             haveFlag := false },
           { author := "doe", title := "w2", key_concepts := "",
             stream := "", topic := "", year := some 1940,
             haveFlag := false },
           { author := "poe", title := "w3", key_concepts := "",
             stream := "", topic := "", year := some 1930,
             haveFlag := false }]) "doe" = some ws ∧
      List.Perm ws
        (authorWorks
          (buildAuthorIndex (fun s => [s])
            [{ author := "doe", title := "w1", key_concepts := "",
               stream := "", topic := "", year := some 1950,
               haveFlag := false },
             { author := "doe", title := "w2", key_concepts := "",
               stream := "", topic := "", year := some 1940,
               haveFlag := false },
             { author := "poe", title := "w3", key_concepts := "",
               stream := "", topic := "", year := some 1930,
               haveFlag := false }]) "doe") ∧
      ws.Pairwise (fun a b => yearNum a.year ≤ yearNum b.year)) ∧
    showAuthorJourney
      (buildAuthorIndex (fun s => [s])
        [{ author := "doe", title := "w1", key_concepts := "",
           stream := "", topic := "", year := some 1950,
           haveFlag := false },
         { author := "doe", title := "w2", key_concepts := "",
           stream := "", topic := "", year := some 1940,
           haveFlag := false },
         { author := "poe", title := "w3", key_concepts := "",
           stream := "", topic := "", year := some 1930,
           haveFlag := false }]) "poe" = none :=
  ⟨(author_journey_spec (fun s => [s]) (fun s => s) _
      { author := "doe", title := "w1", key_concepts := "", stream := "",
        topic := "", year := some 1950, haveFlag := false } "doe").2.2
    (by decide),
   (author_journey_spec (fun s => [s]) (fun s => s) _
      { author := "doe", title := "w1", key_concepts := "", stream := "",
        topic := "", year := some 1950, haveFlag := false } "poe").2.1
    (by decide)⟩

/-- Claim C8: `drawDivergence` takes the divergence object's window keys
in ascending sorted order and draws one point per window, at x
corresponding to the window's start year plus 2 and y given by the linear
map `yPos(val) = pad.top + (1 - val) * chartH` applied to that window's
`cosine_distance`, connecting consecutive points with a single polyline in
the same order. -/
theorem drawDivergence_polyline_spec (c : DivCfg)
    (div : List (String × ℚ)) :
    ∃ ws : List String,
      List.Perm ws (div.map Prod.fst) ∧
      ws.Pairwise (fun a b => a ≤ b) ∧
      divergencePolyline c div = ws.map (fun dw =>
        (xPosDiv c ((windowMid dw : Int) : ℚ),
         yPosDiv c (divValue div dw))) ∧
      (∀ dw : String, ∀ start : Int,
        parseIntJS (splitHead dw) = some start → windowMid dw = start + 2) ∧
      (∀ v : ℚ, yPosDiv c v = 30 + (1 - v) * (c.h - 30 - c.padBottom)) := by
  refine ⟨sortedWindows div, List.mergeSort_perm _ _, ?_, rfl, ?_,
    fun v => rfl⟩
  · have hs := @List.sorted_mergeSort _
      (fun a b : String => decide (a ≤ b))
      (fun a b c h1 h2 => by
        simp only [decide_eq_true_eq] at *
        exact le_trans h1 h2)
      (fun a b => by
        simp only [Bool.or_eq_true, decide_eq_true_eq]
        exact le_total a b)
      (div.map Prod.fst)
    exact hs.imp (fun hab => by simpa using hab)
  · intro dw start h
    unfold windowMid
    rw [h]
    rfl

/-- Closed instance of `drawDivergence_polyline_spec`: the window
`"1958-1962"` is plotted at its start year plus 2, i.e. 1960. -/
theorem drawDivergence_polyline_spec_witness :
    windowMid "1958-1962" = (1960 : Int) := by
  obtain ⟨ws, -, -, -, hmid, -⟩ := drawDivergence_polyline_spec
    { w := 800, h := 300, padBottom := 45, minYear := 1860, maxYear := 2030 }
    []
  exact hmid "1958-1962" 1958 (by decide)

end TwoParadigms
